import Mathlib

/-!
Shallow embedding of the byte-space navigation, selection, search and
highlight engine of rust-hox (src/hox.rs and src/search_widget.rs).

Machine integers (`usize`, `u8`) are modelled as `Nat`.  Where the Rust
code can overflow or index out of bounds (a panic in Rust), the embedded
function returns `Option` and yields `none` exactly on those inputs;
subtraction that cannot underflow on the modelled paths uses plain
truncated `Nat` subtraction, which agrees with `usize` there.
-/

/-- The viewer state: the fields of `struct Hox` (src/hox.rs) that the
navigation / selection / search logic reads or writes.  `mem` is the
memory-mapped file contents (`self.mmap`, bytes as `Nat < 256`),
`size = mem.length`. -/
structure Hox where
  mem : List Nat
  view_offset : Nat
  view_size : Nat
  cursor : Nat
  selection_start : Nat
  selection_end : Nat
  bytes_per_row : Nat
  need_redraw : Bool
  selecting : Bool
  view_mask_valid : Bool
  search_data : List Nat
  error : Option String
deriving Repr, DecidableEq

/-- `max_view_offset` as computed inside `Hox::adjust_view` (src/hox.rs:935-939)
and duplicated in the `KeyNPage` handler (src/hox.rs:1060-1064). -/
def Hox.max_view_offset (s : Hox) : Nat :=
  if s.view_size < s.mem.length then
    s.mem.length - s.mem.length % s.bytes_per_row - (s.view_size - s.bytes_per_row)
  else 0

/-- `Hox::adjust_view` (src/hox.rs:932-952): recompute `view_offset` so the
cursor is inside the viewport, snapping to row boundaries, then invalidate
the cached highlight mask. -/
def Hox.adjust_view (s : Hox) : Hox :=
  let s' :=
    if 0 < s.bytes_per_row then
      let maxvo := s.max_view_offset
      if s.view_offset + s.view_size ≤ s.cursor then
        { s with
          view_offset :=
            min maxvo (s.cursor - s.cursor % s.bytes_per_row + s.bytes_per_row - s.view_size),
          need_redraw := true }
      else if s.cursor < s.view_offset then
        { s with
          view_offset := min maxvo (s.cursor - s.cursor % s.bytes_per_row),
          need_redraw := true }
      else if maxvo < s.view_offset then
        { s with view_offset := maxvo }
      else s
    else s
  { s' with view_mask_valid := false }

/-- The selection-extension rules of `Hox::set_cursor` (src/hox.rs:481-509),
as a function from (old cursor, new cursor, old start, old end) to
(new start, new end).  Only called when `new ≠ old`. -/
def updatedSelection (old new sel_start sel_end : Nat) : Nat × Nat :=
  if old < new then
    if old + 1 = sel_end then (sel_start, new + 1)
    else if sel_end ≤ new then (sel_end - 1, new + 1)
    else (new, if sel_end ≤ new then new + 1 else sel_end)
  else
    if old = sel_start then (new, sel_end)
    else if new < sel_start then (new, sel_start + 1)
    else (if new + 1 ≤ sel_start then new else sel_start, new + 1)

/-- `Hox::set_cursor` (src/hox.rs:472-516): clamp the target to
`[0, size-1]` (no-op on an empty file), extend the selection when
`selecting`, then move the cursor and re-adjust the view. -/
def Hox.set_cursor (s : Hox) (cursor0 : Nat) : Hox :=
  let size := s.mem.length
  if 0 < size then
    let cursor := if size ≤ cursor0 then size - 1 else cursor0
    if cursor ≠ s.cursor then
      let s1 :=
        if s.selecting then
          let p := updatedSelection s.cursor cursor s.selection_start s.selection_end
          { s with selection_start := p.1, selection_end := p.2 }
        else s
      Hox.adjust_view { s1 with cursor := cursor, need_redraw := true }
    else s
  else s

/-- The viewport invariant of the spec: the cursor is visible,
`view_offset ≤ cursor < view_offset + view_size`. -/
def Hox.viewInv (s : Hox) : Prop :=
  s.view_offset ≤ s.cursor ∧ s.cursor < s.view_offset + s.view_size

instance (s : Hox) : Decidable s.viewInv := by unfold Hox.viewInv; infer_instance

lemma Hox.adjust_view_mem (s : Hox) : s.adjust_view.mem = s.mem := by
  unfold Hox.adjust_view
  dsimp only
  split <;> first | rfl | (split <;> first | rfl | (split <;> first | rfl | (split <;> rfl)))

lemma Hox.adjust_view_cursor (s : Hox) : s.adjust_view.cursor = s.cursor := by
  unfold Hox.adjust_view
  dsimp only
  split <;> first | rfl | (split <;> first | rfl | (split <;> first | rfl | (split <;> rfl)))

/-- `adjust_view` establishes the viewport invariant from any state in which
the cursor is valid and the viewport is well formed
(`bytes_per_row ≤ view_size`, so `view_size = bytes_per_row * visible_rows`
with at least one row). -/
lemma Hox.adjust_view_viewInv (s : Hox) (hbpr : 0 < s.bytes_per_row)
    (hvs : s.bytes_per_row ≤ s.view_size) (hc : s.cursor < s.mem.length) :
    s.adjust_view.viewInv := by
  have h1 : s.cursor % s.bytes_per_row < s.bytes_per_row := Nat.mod_lt _ hbpr
  have h2 : s.cursor % s.bytes_per_row ≤ s.cursor := Nat.mod_le _ _
  have h3 : s.mem.length % s.bytes_per_row < s.bytes_per_row := Nat.mod_lt _ hbpr
  have h4 : s.mem.length % s.bytes_per_row ≤ s.mem.length := Nat.mod_le _ _
  unfold Hox.adjust_view Hox.max_view_offset Hox.viewInv
  dsimp only
  repeat' split
  all_goals try dsimp only
  all_goals omega

lemma Hox.adjust_view_selection_start (s : Hox) :
    s.adjust_view.selection_start = s.selection_start := by
  unfold Hox.adjust_view
  dsimp only
  repeat' split
  all_goals rfl

lemma Hox.adjust_view_selection_end (s : Hox) :
    s.adjust_view.selection_end = s.selection_end := by
  unfold Hox.adjust_view
  dsimp only
  repeat' split
  all_goals rfl

lemma Hox.adjust_view_selecting (s : Hox) : s.adjust_view.selecting = s.selecting := by
  unfold Hox.adjust_view
  dsimp only
  repeat' split
  all_goals rfl

lemma Hox.adjust_view_view_size (s : Hox) : s.adjust_view.view_size = s.view_size := by
  unfold Hox.adjust_view
  dsimp only
  repeat' split
  all_goals rfl

lemma Hox.adjust_view_bytes_per_row (s : Hox) :
    s.adjust_view.bytes_per_row = s.bytes_per_row := by
  unfold Hox.adjust_view
  dsimp only
  repeat' split
  all_goals rfl

lemma Hox.adjust_view_search_data (s : Hox) :
    s.adjust_view.search_data = s.search_data := by
  unfold Hox.adjust_view
  dsimp only
  repeat' split
  all_goals rfl

lemma Hox.adjust_view_error (s : Hox) : s.adjust_view.error = s.error := by
  unfold Hox.adjust_view
  dsimp only
  repeat' split
  all_goals rfl

/-- C1: for every file with `size > 0` and every well-formed viewport
(`view_size` a positive multiple of `bytes_per_row`, here weakened to the
consequence `bytes_per_row ≤ view_size` actually used), after a call
`set_cursor x` with `0 ≤ x < size` the viewport invariant
`view_offset ≤ cursor < view_offset + view_size` holds.  When `x` equals
the current cursor the call is a no-op in the source, so the invariant is
required of the starting state in that (and only that) case. -/
theorem Hox.set_cursor_view_invariant (s : Hox) (x : Nat)
    (hsize : 0 < s.mem.length) (hbpr : 0 < s.bytes_per_row)
    (hvs : s.bytes_per_row ≤ s.view_size) (hx : x < s.mem.length)
    (hprev : x = s.cursor → s.viewInv) :
    (s.set_cursor x).viewInv := by
  unfold Hox.set_cursor
  dsimp only
  rw [if_pos hsize]
  have hclamp : (if s.mem.length ≤ x then s.mem.length - 1 else x) = x :=
    if_neg (by omega)
  rw [hclamp]
  by_cases hx2 : x = s.cursor
  · rw [if_neg (by simp [hx2])]
    exact hprev hx2
  · rw [if_pos hx2]
    split
    · exact Hox.adjust_view_viewInv _ hbpr hvs (by simpa using hx)
    · exact Hox.adjust_view_viewInv _ hbpr hvs (by simpa using hx)

/-- Concrete state used to witness the C1 theorem. -/
def c1state : Hox :=
  { mem := [0, 0, 0, 0, 0, 0, 0, 0, 0, 0], view_offset := 0, view_size := 8,
    cursor := 0, selection_start := 0, selection_end := 0, bytes_per_row := 4,
    need_redraw := false, selecting := false, view_mask_valid := true,
    search_data := [], error := none }

/-- Witness for C1 at a concrete state: a 10-byte file, a 2-row × 4-byte
viewport, `set_cursor 9`. -/
theorem Hox.set_cursor_view_invariant_witness :
    0 < c1state.mem.length ∧ 0 < c1state.bytes_per_row ∧
    c1state.bytes_per_row ≤ c1state.view_size ∧ 9 < c1state.mem.length ∧
    (c1state.set_cursor 9).viewInv :=
  ⟨by decide, by decide, by decide, by decide,
    Hox.set_cursor_view_invariant c1state 9 (by decide) (by decide) (by decide)
      (by decide) (by decide)⟩

lemma Hox.set_cursor_selecting (s : Hox) (x : Nat) :
    (s.set_cursor x).selecting = s.selecting := by
  unfold Hox.set_cursor
  dsimp only
  repeat' split
  all_goals simp [Hox.adjust_view_selecting]

/-- The inductive invariant behind C2: while a selection is being
extended, the cursor stays inside the half-open selection range. -/
def Hox.selInv (s : Hox) : Prop :=
  s.selection_start ≤ s.cursor ∧ s.cursor < s.selection_end

instance (s : Hox) : Decidable s.selInv := by unfold Hox.selInv; infer_instance

lemma updatedSelection_inv (old new st en : Nat)
    (h1 : st ≤ old) (h2 : old < en) :
    (updatedSelection old new st en).1 ≤ new ∧
      new < (updatedSelection old new st en).2 := by
  unfold updatedSelection
  repeat' split
  all_goals dsimp only
  all_goals omega

lemma Hox.set_cursor_selInv (s : Hox) (x : Nat) (hsel : s.selecting = true)
    (h : s.selInv) : (s.set_cursor x).selInv := by
  unfold Hox.set_cursor
  dsimp only
  split
  · set c := if s.mem.length ≤ x then s.mem.length - 1 else x with hc
    by_cases hx2 : c = s.cursor
    · rw [if_neg (by simp [hx2])]
      exact h
    · rw [if_pos hx2, hsel]
      have inv := updatedSelection_inv s.cursor c s.selection_start s.selection_end
        h.1 h.2
      unfold Hox.selInv
      rw [Hox.adjust_view_cursor, Hox.adjust_view_selection_start,
        Hox.adjust_view_selection_end]
      exact inv
  · exact h

/-- C2: starting from the state the `s` key creates
(`selection_start = cursor`, `selection_end = cursor + 1`, `selecting`),
any sequence of `set_cursor` calls keeps `selection_start ≤ selection_end`,
and `selection_end - selection_start ≥ 1` whenever the selection is
non-empty. -/
theorem Hox.selection_invariant (s : Hox) (moves : List Nat)
    (hsel : s.selecting = true) (hstart : s.selection_start = s.cursor)
    (hend : s.selection_end = s.cursor + 1) :
    (moves.foldl Hox.set_cursor s).selection_start ≤
        (moves.foldl Hox.set_cursor s).selection_end ∧
      ((moves.foldl Hox.set_cursor s).selection_start ≠
          (moves.foldl Hox.set_cursor s).selection_end →
        1 ≤ (moves.foldl Hox.set_cursor s).selection_end -
          (moves.foldl Hox.set_cursor s).selection_start) := by
  have key : ∀ (ms : List Nat) (t : Hox), t.selecting = true → t.selInv →
      (ms.foldl Hox.set_cursor t).selInv := by
    intro ms
    induction ms with
    | nil => intro t _ h; exact h
    | cons m ms ih =>
      intro t ht h
      exact ih _ (by rw [Hox.set_cursor_selecting]; exact ht)
        (Hox.set_cursor_selInv t m ht h)
  have h0 : s.selInv := ⟨le_of_eq hstart, by omega⟩
  have hfin := key moves s hsel h0
  unfold Hox.selInv at hfin
  omega

/-- Concrete state used to witness the C2 theorem: selection just started
at cursor 2 on a 10-byte file. -/
def c2state : Hox :=
  { mem := [0, 0, 0, 0, 0, 0, 0, 0, 0, 0], view_offset := 0, view_size := 8,
    cursor := 2, selection_start := 2, selection_end := 3, bytes_per_row := 4,
    need_redraw := false, selecting := true, view_mask_valid := true,
    search_data := [], error := none }

/-- Witness for C2 on the move sequence `[5, 1, 7]`. -/
theorem Hox.selection_invariant_witness :
    c2state.selecting = true ∧ c2state.selection_start = c2state.cursor ∧
      c2state.selection_end = c2state.cursor + 1 ∧
      (([5, 1, 7].foldl Hox.set_cursor c2state).selection_start ≤
          ([5, 1, 7].foldl Hox.set_cursor c2state).selection_end ∧
        (([5, 1, 7].foldl Hox.set_cursor c2state).selection_start ≠
            ([5, 1, 7].foldl Hox.set_cursor c2state).selection_end →
          1 ≤ ([5, 1, 7].foldl Hox.set_cursor c2state).selection_end -
            ([5, 1, 7].foldl Hox.set_cursor c2state).selection_start)) :=
  ⟨by decide, by decide, by decide,
    Hox.selection_invariant c2state [5, 1, 7] (by decide) (by decide) (by decide)⟩

/-- C10: `set_cursor` called while `selecting == false` leaves
`selection_start`, `selection_end` and `selecting` unchanged — and also
the file contents, viewport geometry, search pattern and error message;
only `cursor`, `view_offset`, `need_redraw` and `view_mask_valid` can
change. -/
theorem Hox.set_cursor_frame (s : Hox) (x : Nat) (h : s.selecting = false) :
    (s.set_cursor x).selection_start = s.selection_start ∧
      (s.set_cursor x).selection_end = s.selection_end ∧
      (s.set_cursor x).selecting = s.selecting ∧
      (s.set_cursor x).mem = s.mem ∧
      (s.set_cursor x).view_size = s.view_size ∧
      (s.set_cursor x).bytes_per_row = s.bytes_per_row ∧
      (s.set_cursor x).search_data = s.search_data ∧
      (s.set_cursor x).error = s.error := by
  unfold Hox.set_cursor
  dsimp only
  repeat' split
  all_goals first
    | exact absurd ‹s.selecting = true› (by simp [h])
    | exact ⟨rfl, rfl, rfl, rfl, rfl, rfl, rfl, rfl⟩
    | (refine ⟨?_, ?_, ?_, ?_, ?_, ?_, ?_, ?_⟩ <;>
        simp [Hox.adjust_view_selection_start, Hox.adjust_view_selection_end,
          Hox.adjust_view_selecting, Hox.adjust_view_mem,
          Hox.adjust_view_view_size, Hox.adjust_view_bytes_per_row,
          Hox.adjust_view_search_data, Hox.adjust_view_error])

/-- Witness for C10 at a concrete non-selecting state. -/
theorem Hox.set_cursor_frame_witness :
    c1state.selecting = false ∧
      ((c1state.set_cursor 7).selection_start = c1state.selection_start ∧
        (c1state.set_cursor 7).selection_end = c1state.selection_end ∧
        (c1state.set_cursor 7).selecting = c1state.selecting ∧
        (c1state.set_cursor 7).mem = c1state.mem ∧
        (c1state.set_cursor 7).view_size = c1state.view_size ∧
        (c1state.set_cursor 7).bytes_per_row = c1state.bytes_per_row ∧
        (c1state.set_cursor 7).search_data = c1state.search_data ∧
        (c1state.set_cursor 7).error = c1state.error) :=
  ⟨by decide, Hox.set_cursor_frame c1state 7 (by decide)⟩

/-- `&mem[offset..offset + needle.len()] == needle`: the slice comparison
used by the search scans.  All call sites below establish
`offset + needle.length ≤ mem.length` (or fail before comparing), so the
total `take`/`drop` encoding agrees with Rust slicing. -/
def sliceEq (mem : List Nat) (offset : Nat) (needle : List Nat) : Prop :=
  (mem.drop offset).take needle.length = needle

instance (mem : List Nat) (offset : Nat) (needle : List Nat) :
    Decidable (sliceEq mem offset needle) := by unfold sliceEq; infer_instance

/-- The upward scan loop `for offset in start_offset..end_offset` of
`Hox::find_next` (src/hox.rs:1446-1452); `fuel = end_offset - start_offset`. -/
def scanRange (mem needle : List Nat) : Nat → Nat → Option Nat
  | _, 0 => none
  | start, fuel + 1 =>
    if sliceEq mem start needle then some start
    else scanRange mem needle (start + 1) fuel

/-- The downward scan loop of `Hox::find_previous` (src/hox.rs:1470-1481),
from `start` down to 0 inclusive. -/
def scanDown (mem needle : List Nat) : Nat → Option Nat
  | 0 => if sliceEq mem 0 needle then some 0 else none
  | o + 1 =>
    if sliceEq mem (o + 1) needle then some (o + 1) else scanDown mem needle o

/-- `usize` subtraction: `none` models the arithmetic-overflow panic
(debug) / wrap-around followed by an out-of-bounds slice panic (release). -/
def checkedSub (a b : Nat) : Option Nat := if b ≤ a then some (a - b) else none

/-- `Hox::find_next` (src/hox.rs:1436-1459): scan strictly after the cursor
for the first exact match of `search_data`; on success clear the error and
move the cursor, on failure set the not-found error.  The returned `Bool`
is the function's return value. -/
def Hox.find_next (s : Hox) : Hox × Bool :=
  let search_size := s.search_data.length
  if 0 < search_size then
    let size := s.mem.length
    let s1 := { s with need_redraw := true }
    if search_size ≤ size then
      let start_offset := s.cursor + 1
      let end_offset := size - search_size + 1
      match scanRange s1.mem s1.search_data start_offset (end_offset - start_offset) with
      | some offset => (Hox.set_cursor { s1 with error := none } offset, true)
      | none => ({ s1 with error := some "Pattern not found searching forward" }, false)
    else ({ s1 with error := some "Pattern not found searching forward" }, false)
  else (s, false)

/-- `Hox::find_previous` (src/hox.rs:1461-1488).  Unlike `find_next` there
is no `search_size <= size` guard: `size - search_size` underflows when
the pattern is longer than the file, modelled by `checkedSub` returning
`none` (a panic in Rust). -/
def Hox.find_previous (s : Hox) : Option (Hox × Bool) :=
  let search_size := s.search_data.length
  if 0 < search_size then
    let size := s.mem.length
    let s1 := { s with need_redraw := true }
    if 0 < s.cursor then
      match checkedSub size search_size with
      | none => none
      | some d =>
        match scanDown s1.mem s1.search_data (min (s.cursor - 1) d) with
        | some offset => some (Hox.set_cursor { s1 with error := none } offset, true)
        | none =>
          some ({ s1 with error := some "Pattern not found searching backward" }, false)
    else some ({ s1 with error := some "Pattern not found searching backward" }, false)
  else some (s, false)

/-- The 10-byte file of the C5 example: the pattern `[0xAB]` occurs exactly
at offsets 3 and 9. -/
def c5mem : List Nat := [0, 0, 0, 171, 0, 0, 0, 0, 0, 171]

/-- C5 base state with cursor `c` and view offset `vo`. -/
def c5state (c vo : Nat) : Hox :=
  { mem := c5mem, view_offset := vo, view_size := 8, cursor := c,
    selection_start := 0, selection_end := 0, bytes_per_row := 4,
    need_redraw := false, selecting := false, view_mask_valid := true,
    search_data := [171], error := none }

/-- C5: with the pattern `[0xAB]` at offsets {3, 9} of a 10-byte source,
`find_next` from 0 moves the cursor to 3, from 3 to 9, and from 9 reports
not-found leaving the cursor at 9; `find_previous` from 9 moves to 3 and
from 3 reports not-found leaving the cursor unchanged. -/
theorem Hox.find_next_previous_example :
    ((c5state 0 0).find_next.1.cursor = 3 ∧ (c5state 0 0).find_next.2 = true) ∧
      ((c5state 3 0).find_next.1.cursor = 9 ∧ (c5state 3 0).find_next.2 = true) ∧
      ((c5state 9 4).find_next.1.cursor = 9 ∧ (c5state 9 4).find_next.2 = false ∧
        (c5state 9 4).find_next.1.error =
          some "Pattern not found searching forward") ∧
      ((c5state 9 4).find_previous.map (fun p => (p.1.cursor, p.2)) =
        some (3, true)) ∧
      ((c5state 3 0).find_previous.map (fun p => (p.1.cursor, p.2)) =
        some (3, false)) ∧
      ((c5state 3 0).find_previous.map (fun p => p.1.error) =
        some (some "Pattern not found searching backward")) := by
  decide

/-- Concrete state for C9: 2-byte file, cursor at 1, 3-byte search pattern. -/
def c9state : Hox :=
  { mem := [0, 0], view_offset := 0, view_size := 8, cursor := 1,
    selection_start := 0, selection_end := 0, bytes_per_row := 4,
    need_redraw := false, selecting := false, view_mask_valid := true,
    search_data := [1, 2, 3], error := none }

/-- C9: `find_previous` with a pattern longer than the file and a nonzero
cursor evaluates `size - search_size`, which underflows (`none` = panic:
debug overflow-check, or release wrap followed by an out-of-bounds slice),
instead of reporting not-found. -/
theorem Hox.find_previous_long_pattern_panics : c9state.find_previous = none := by
  decide

lemma scanRange_some (mem needle : List Nat) (start fuel off : Nat)
    (h : scanRange mem needle start fuel = some off) :
    start ≤ off ∧ off < start + fuel := by
  induction fuel generalizing start with
  | zero => simp [scanRange] at h
  | succ n ih =>
    rw [scanRange] at h
    split at h
    · cases h
      omega
    · have := ih (start + 1) h
      omega

/-- Moving the cursor forward while `selecting` with the cursor at the
selection's trailing edge (`cursor + 1 == selection_end`) grows the
selection: `selection_end` becomes the new cursor + 1 and
`selection_start` is untouched (first branch of src/hox.rs:482-484). -/
lemma Hox.set_cursor_forward_extend (t : Hox) (off : Nat)
    (hsel : t.selecting = true) (hoff : t.cursor < off)
    (hlt : off < t.mem.length) (hend : t.selection_end = t.cursor + 1) :
    (t.set_cursor off).cursor = off ∧
      (t.set_cursor off).selection_start = t.selection_start ∧
      (t.set_cursor off).selection_end = off + 1 ∧
      (t.set_cursor off).selecting = t.selecting := by
  unfold Hox.set_cursor
  dsimp only
  rw [if_pos (show 0 < t.mem.length by omega)]
  rw [if_neg (show ¬t.mem.length ≤ off by omega)]
  rw [if_pos (show off ≠ t.cursor by omega)]
  rw [hsel]
  unfold updatedSelection
  rw [if_pos hoff, if_pos hend.symm]
  rw [Hox.adjust_view_cursor, Hox.adjust_view_selection_start,
    Hox.adjust_view_selection_end, Hox.adjust_view_selecting]
  exact ⟨rfl, rfl, rfl, rfl⟩

/-- C8 (amended): when `find_next` succeeds while a selection is being
extended from its trailing edge, the selection is NOT collapsed: the
`selecting` flag survives, `selection_start` is kept, and the selection
grows so that its end tracks the new cursor (the match offset, strictly
after the old cursor). -/
theorem Hox.find_next_success_extends_selection (s s' : Hox)
    (hsel : s.selecting = true) (hend : s.selection_end = s.cursor + 1)
    (hrun : s.find_next = (s', true)) :
    s'.selecting = true ∧ s'.selection_start = s.selection_start ∧
      s'.selection_end = s'.cursor + 1 ∧ s.cursor < s'.cursor := by
  unfold Hox.find_next at hrun
  dsimp only at hrun
  split at hrun
  · split at hrun
    · split at hrun
      · rename_i hss hle off hscan
        obtain ⟨hs', -⟩ := Prod.mk.injEq .. ▸ hrun
        have hb := scanRange_some _ _ _ _ _ hscan
        have hoff : s.cursor < off := by omega
        have hofflt : off < s.mem.length := by omega
        have key := Hox.set_cursor_forward_extend
          { s with need_redraw := true, error := none } off
          (by simpa using hsel) (by simpa using hoff) (by simpa using hofflt)
          (by simpa using hend)
        subst hs'
        refine ⟨?_, ?_, ?_, ?_⟩
        · rw [key.2.2.2]; simpa using hsel
        · rw [key.2.1]
        · rw [key.2.2.1, key.1]
        · rw [key.1]; exact hoff
      · exact absurd (congrArg Prod.snd hrun) (by simp)
    · exact absurd (congrArg Prod.snd hrun) (by simp)
  · exact absurd (congrArg Prod.snd hrun) (by simp)

/-- Concrete state for C8: selection just started at cursor 0 on the C5
file, search pattern `[0xAB]`. -/
def c8state : Hox :=
  { c5state 0 0 with selecting := true, selection_start := 0, selection_end := 1 }

/-- Counterexample to C8 as stated: a successful `find_next` does NOT
collapse an in-progress selection — starting from `selection = [0,1)`,
`selecting = true`, the search succeeds at offset 3 and the selection
survives and grows to `[0,4)`. -/
theorem Hox.find_next_selection_survives_counterexample :
    c8state.find_next.2 = true ∧ c8state.find_next.1.cursor = 3 ∧
      c8state.find_next.1.selecting = true ∧
      c8state.find_next.1.selection_start = 0 ∧
      c8state.find_next.1.selection_end = 4 := by
  decide

/-- Witness for the amended C8 theorem at `c8state`. -/
theorem Hox.find_next_success_extends_selection_witness :
    c8state.selecting = true ∧ c8state.selection_end = c8state.cursor + 1 ∧
      (c8state.find_next.1.selecting = true ∧
        c8state.find_next.1.selection_start = c8state.selection_start ∧
        c8state.find_next.1.selection_end = c8state.find_next.1.cursor + 1 ∧
        c8state.cursor < c8state.find_next.1.cursor) :=
  ⟨by decide, by decide,
    Hox.find_next_success_extends_selection c8state c8state.find_next.1
      (by decide) (by decide) (by decide)⟩

/-- The `KeyPPage` handler of `Hox::handle` (src/hox.rs:1043-1057). -/
def Hox.page_up (s : Hox) : Hox :=
  if 0 < s.view_offset then
    let s' :=
      if s.view_size ≤ s.view_offset then
        Hox.set_cursor { s with view_offset := s.view_offset - s.view_size }
          (s.cursor - s.view_size)
      else
        Hox.set_cursor { s with view_offset := 0 } (s.cursor - s.view_offset)
    { s' with need_redraw := true, error := none }
  else { s with error := none }

/-- The `KeyNPage` handler of `Hox::handle` (src/hox.rs:1058-1082). -/
def Hox.page_down (s : Hox) : Hox :=
  let size := s.mem.length
  let maxvo := s.max_view_offset
  if s.view_offset < maxvo then
    let view_offset := s.view_offset + s.view_size
    let cursor := s.cursor + s.view_size
    let s1 :=
      { s with view_offset := if maxvo < view_offset then maxvo else view_offset }
    let s2 :=
      if size ≤ cursor then Hox.set_cursor s1 (cursor - s.bytes_per_row)
      else Hox.set_cursor s1 cursor
    { s2 with need_redraw := true, error := none }
  else { s with error := none }

lemma Hox.max_view_offset_congr (a b : Hox) (hm : a.mem = b.mem)
    (hv : a.view_size = b.view_size) (hb : a.bytes_per_row = b.bytes_per_row) :
    a.max_view_offset = b.max_view_offset := by
  unfold Hox.max_view_offset
  rw [hm, hv, hb]

/-- `adjust_view` does not scroll when the cursor is already visible and
`view_offset` is already legal. -/
lemma Hox.adjust_view_no_scroll (u : Hox) (h1 : u.view_offset ≤ u.cursor)
    (h2 : u.cursor < u.view_offset + u.view_size)
    (h3 : u.view_offset ≤ u.max_view_offset) :
    u.adjust_view.view_offset = u.view_offset := by
  unfold Hox.adjust_view
  dsimp only
  repeat' split
  all_goals try dsimp only
  all_goals omega

/-- Evaluation of `set_cursor` when the target is a genuine move that is
already inside the viewport: the cursor moves and the view does not. -/
lemma Hox.set_cursor_eval (t : Hox) (x : Nat) (hsz : 0 < t.mem.length)
    (hxlt : x < t.mem.length) (hne : x ≠ t.cursor)
    (hin1 : t.view_offset ≤ x) (hin2 : x < t.view_offset + t.view_size)
    (hmax : t.view_offset ≤ t.max_view_offset) :
    (t.set_cursor x).cursor = x ∧ (t.set_cursor x).view_offset = t.view_offset := by
  unfold Hox.set_cursor
  dsimp only
  rw [if_pos hsz, if_neg (show ¬t.mem.length ≤ x by omega), if_pos hne]
  split
  · constructor
    · rw [Hox.adjust_view_cursor]
    · rw [Hox.adjust_view_no_scroll] <;> dsimp only
      · omega
      · omega
      · unfold Hox.max_view_offset at hmax ⊢
        dsimp only
        exact hmax
  · constructor
    · rw [Hox.adjust_view_cursor]
    · rw [Hox.adjust_view_no_scroll] <;> dsimp only
      · omega
      · omega
      · unfold Hox.max_view_offset at hmax ⊢
        dsimp only
        exact hmax

/-- C6 (amended): `page_up` shifts `view_offset` and the cursor by exactly
the same delta, `min view_offset view_size` (one viewport's worth, clamped
at offset 0); this equal-delta property does NOT hold for `page_down`,
which moves the cursor by a full `view_size` even when the view clamps to
`max_view_offset` (see the counterexample). -/
theorem Hox.page_up_moves_view_and_cursor_equally (s : Hox)
    (hbpr : 0 < s.bytes_per_row) (hvs : s.bytes_per_row ≤ s.view_size)
    (hinv : s.viewInv) (hmax : s.view_offset ≤ s.max_view_offset)
    (hc : s.cursor < s.mem.length) :
    s.page_up.cursor = s.cursor - min s.view_offset s.view_size ∧
      s.page_up.view_offset = s.view_offset - min s.view_offset s.view_size := by
  obtain ⟨hinv1, hinv2⟩ := hinv
  unfold Hox.page_up
  dsimp only
  by_cases hvo : 0 < s.view_offset
  · rw [if_pos hvo]
    by_cases hcase : s.view_size ≤ s.view_offset
    · rw [if_pos hcase]
      have he := Hox.set_cursor_eval
        { s with view_offset := s.view_offset - s.view_size }
        (s.cursor - s.view_size) (by dsimp only; omega) (by dsimp only; omega)
        (by dsimp only; omega) (by dsimp only; omega) (by dsimp only; omega)
        (by unfold Hox.max_view_offset at hmax ⊢; dsimp only; omega)
      dsimp only
      rw [he.1, he.2]
      dsimp only
      omega
    · rw [if_neg hcase]
      have he := Hox.set_cursor_eval { s with view_offset := 0 }
        (s.cursor - s.view_offset) (by dsimp only; omega) (by dsimp only; omega)
        (by dsimp only; omega) (by dsimp only; omega) (by dsimp only; omega)
        (by dsimp only; omega)
      dsimp only
      rw [he.1, he.2]
      dsimp only
      omega
  · rw [if_neg hvo]
    dsimp only
    omega

/-- Counterexample to C6 as stated: on a 10-byte file with a 2×4 viewport
at offset 0 and cursor 0, `page_down` moves the cursor by 8 but the view
by only 4 (the view clamps to `max_view_offset = 4`), so view and cursor
move by different amounts. -/
theorem Hox.page_down_unequal_deltas_counterexample :
    c1state.page_down.cursor - c1state.cursor = 8 ∧
      c1state.page_down.view_offset - c1state.view_offset = 4 ∧
      ¬(c1state.page_down.cursor - c1state.cursor =
        c1state.page_down.view_offset - c1state.view_offset) := by
  decide

/-- Concrete state for the C6 witness: viewport at offset 4, cursor 5. -/
def c6state : Hox := { c1state with view_offset := 4, cursor := 5 }

/-- Witness for the amended C6 theorem at `c6state`. -/
theorem Hox.page_up_moves_view_and_cursor_equally_witness :
    0 < c6state.bytes_per_row ∧ c6state.bytes_per_row ≤ c6state.view_size ∧
      c6state.viewInv ∧ c6state.view_offset ≤ c6state.max_view_offset ∧
      c6state.cursor < c6state.mem.length ∧
      (c6state.page_up.cursor =
          c6state.cursor - min c6state.view_offset c6state.view_size ∧
        c6state.page_up.view_offset =
          c6state.view_offset - min c6state.view_offset c6state.view_size) :=
  ⟨by decide, by decide, by decide, by decide, by decide,
    Hox.page_up_moves_view_and_cursor_equally c6state (by decide) (by decide)
      (by decide) (by decide) (by decide)⟩

/-- `std::usize::MAX` on a 64-bit host. -/
def USIZE_MAX : Nat := 2 ^ 64 - 1

/-- `Hox::goto_percent` (src/hox.rs:1521-1534).  In the no-overflow branch
the code computes `max_offset * percent - 1`; for `percent = 0` this
underflows (`checkedSub … = none`, a panic in debug Rust; in release the
wrapped value clamps the cursor to `size - 1`). -/
def Hox.goto_percent (s : Hox) (percent : Nat) : Option Hox :=
  let size := s.mem.length
  if 1 < size then
    let max_offset := size - 1
    if 100 ≤ percent then some (s.set_cursor max_offset)
    else if USIZE_MAX / 100 < max_offset then
      some (s.set_cursor ((1 + (max_offset - 1) / 100) * percent))
    else
      (checkedSub (max_offset * percent) 1).map (fun t => s.set_cursor (1 + t / 100))
  else some s

/-- C4: `goto_percent 100` does land the cursor at `N - 1` (here `9`), but
`goto_percent 0` on a file with `N ≥ 2` does not land at 0 — the
expression `max_offset * percent - 1` underflows (`none`). -/
theorem Hox.goto_percent_zero_underflows :
    (c1state.goto_percent 100).map Hox.cursor = some 9 ∧
      c1state.goto_percent 0 = none := by
  decide

/-- Highlight-mask bit constants (src/hox.rs:48-53). -/
def MASK_SEARCH : Nat := 1

def MASK_SEARCH_END : Nat := 2

def MASK_HIGHLIGHT : Nat := 4

def MASK_HIGHLIGHT_END : Nat := 8

def MASK_SELECTED : Nat := 16

def MASK_SELECTED_END : Nat := 32

/-- The occurrence-scan loop of `set_search_mask` (src/hox.rs:261-279),
with `fuel = end_offset - offset`.  `none` models a Rust panic: the slice
`&mem[offset..offset + needle_len]` going out of bounds, the subtraction
`match_offset_end - view_offset - 1` underflowing, or the index
`view_mask[last_view_index]` being out of range.  `255 - me` is the `u8`
complement `!mask_end` (equal to `255 XOR me` for `me ≤ 255`). -/
def scanMask (mem needle : List Nat) (vo veo mm me : Nat) :
    List Nat → Nat → Nat → Option (List Nat)
  | mask, _, 0 => some mask
  | mask, offset, fuel + 1 =>
    if offset + needle.length ≤ mem.length then
      if sliceEq mem offset needle then
        let match_offset_start := max vo offset
        let match_offset_end := min veo (offset + needle.length)
        match checkedSub match_offset_end (vo + 1) with
        | none => none
        | some last =>
          let first := match_offset_start - vo
          if last < mask.length then
            let m1 :=
              if first < last then
                mask.mapIdx fun i b =>
                  if first ≤ i ∧ i < last then Nat.lor (Nat.land b (255 - me)) mm
                  else b
              else mask
            let b := m1.getD last 0
            let m2 :=
              if Nat.land b mm = 0 then m1.set last (Nat.lor b (Nat.lor me mm))
              else m1
            scanMask mem needle vo veo mm me m2 (offset + 1) fuel
          else none
      else scanMask mem needle vo veo mm me mask (offset + 1) fuel
    else none

/-- `set_search_mask` (src/hox.rs:243-281): mark every occurrence of
`needle` whose span intersects the viewport.  `none` models a panic; in
particular `size + 1 - needle_len` underflows when
`needle_len > size + 1`. -/
def set_search_mask (view_mask : List Nat) (view_offset : Nat)
    (mem needle : List Nat) (mask_match mask_end : Nat) : Option (List Nat) :=
  let needle_len := needle.length
  if 0 < needle_len then
    let view_size := view_mask.length
    let size := mem.length
    let start_offset :=
      if needle_len - 1 < view_offset then view_offset + 1 - needle_len else 0
    let end0 := view_offset + view_size + needle_len - 1
    match (if end0 ≤ size then some end0 else checkedSub (size + 1) needle_len) with
    | none => none
    | some end_offset =>
      let view_end_offset := min (view_offset + view_size) size
      scanMask mem needle view_offset view_end_offset mask_match mask_end
        view_mask start_offset (end_offset - start_offset)
  else some view_mask

/-- C7: an empty needle indeed performs no marking, but the bounding of
the scan is NOT safe for every needle: with a 1-byte file, a 4-cell
viewport at offset 0 and a 3-byte needle, the clamp `size + 1 - needle_len`
underflows (`none` = panic; in release Rust the wrapped bound then makes
the scan slice out of bounds). -/
theorem set_search_mask_bounds_bug :
    (∀ (view_mask : List Nat) (view_offset : Nat) (mem : List Nat)
        (mask_match mask_end : Nat),
        set_search_mask view_mask view_offset mem [] mask_match mask_end =
          some view_mask) ∧
      set_search_mask [0, 0, 0, 0] 0 [0] [1, 2, 3] MASK_SEARCH MASK_SEARCH_END =
        none := by
  constructor
  · intro view_mask view_offset mem mask_match mask_end
    rfl
  · decide

/-- `Endian` (src/hox.rs:38-41). -/
inductive Endian where
  | Big
  | Little
deriving Repr, DecidableEq

/-- `IntSize` (src/search_widget.rs:28-33). -/
inductive IntSize where
  | I8
  | I16
  | I32
  | I64
deriving Repr, DecidableEq

/-- `Sign` (src/search_widget.rs:47-50). -/
inductive Sign where
  | Signed
  | Unsigned
deriving Repr, DecidableEq

/-- `SearchMode` (src/search_widget.rs:78-82). -/
inductive SearchMode where
  | String
  | Binary
  | Integer (size : IntSize) (sign : Sign) (endian : Endian)
deriving Repr, DecidableEq

/-- Byte width of an integer search mode (1/2/4/8, per the
`to_le_bytes`/`from_le_bytes` arms of src/search_widget.rs). -/
def IntSize.width : IntSize → Nat
  | .I8 => 1
  | .I16 => 2
  | .I32 => 4
  | .I64 => 8

/-- Most-significant-first decimal digits of `n` (empty for 0); the fuel
argument (any bound on `n`) makes the recursion structural. -/
def natDigitsAux : Nat → Nat → List Char
  | 0, _ => []
  | fuel + 1, n =>
    if n = 0 then [] else natDigitsAux fuel (n / 10) ++ [Nat.digitChar (n % 10)]

/-- Decimal rendering of an unsigned integer, as Rust `format!("{}", v)`. -/
def natToDecimal (n : Nat) : List Char :=
  if n = 0 then ['0'] else natDigitsAux n n

/-- Decimal rendering of a signed integer, as Rust `format!("{}", v)`. -/
def intToDecimal (v : Int) : List Char :=
  if v < 0 then '-' :: natToDecimal v.natAbs else natToDecimal v.toNat

/-- One decimal digit, for `str::parse`. -/
def decDigit (c : Char) : Option Nat :=
  if '0' ≤ c ∧ c ≤ '9' then some (c.toNat - 48) else none

def parseDigitsAux : Nat → List Char → Option Nat
  | acc, [] => some acc
  | acc, c :: cs =>
    match decDigit c with
    | some d => parseDigitsAux (acc * 10 + d) cs
    | none => none

/-- Digit-string parsing: empty input or any non-digit is an error. -/
def parseDigits : List Char → Option Nat
  | [] => none
  | cs => parseDigitsAux 0 cs

/-- Rust `str::parse::<uN>` (with `N = bits`): an optional leading `+`,
then decimal digits; overflow is an error. -/
def parseUnsigned (bits : Nat) (input : List Char) : Option Nat :=
  let ds := if input.head? = some '+' then input.tail else input
  match parseDigits ds with
  | some v => if v < 2 ^ bits then some v else none
  | none => none

/-- Rust `str::parse::<iN>` (with `N = bits`): an optional sign, then
decimal digits; out-of-range values are an error. -/
def parseSigned (bits : Nat) (input : List Char) : Option Int :=
  if input.head? = some '-' then
    (parseDigits input.tail).bind fun v =>
      if (v : Int) ≤ 2 ^ (bits - 1) then some (-(v : Int)) else none
  else
    let ds := if input.head? = some '+' then input.tail else input
    (parseDigits ds).bind fun v =>
      if (v : Int) < 2 ^ (bits - 1) then some (v : Int) else none

/-- `uN::to_le_bytes` for a `width`-byte integer. -/
def natToLEBytes : Nat → Nat → List Nat
  | 0, _ => []
  | w + 1, v => v % 256 :: natToLEBytes w (v / 256)

/-- `uN::from_le_bytes`. -/
def leBytesToNat : List Nat → Nat
  | [] => 0
  | b :: bs => b + 256 * leBytesToNat bs

/-- `to_le_bytes` / `to_be_bytes` depending on the configured endianness. -/
def intBytes (width : Nat) (en : Endian) (v : Nat) : List Nat :=
  match en with
  | .Little => natToLEBytes width v
  | .Big => (natToLEBytes width v).reverse

/-- `from_le_bytes` / `from_be_bytes` depending on the endianness. -/
def bytesToNat (en : Endian) (bs : List Nat) : Nat :=
  match en with
  | .Little => leBytesToNat bs
  | .Big => leBytesToNat bs.reverse

/-- Reinterpret the unsigned value `n < 2^bits` as an `iN` (two's
complement), as done by `iN::from_le_bytes`/`from_be_bytes`. -/
def toSigned (bits n : Nat) : Int :=
  if n < 2 ^ (bits - 1) then (n : Int) else (n : Int) - 2 ^ bits

/-- `char::encode_utf8` (src/search_widget.rs:150-154). -/
def utf8Encode (c : Char) : List Nat :=
  let n := c.toNat
  if n < 0x80 then [n]
  else if n < 0x800 then [0xC0 + n / 64, 0x80 + n % 64]
  else if n < 0x10000 then [0xE0 + n / 4096, 0x80 + n / 64 % 64, 0x80 + n % 64]
  else [0xF0 + n / 262144, 0x80 + n / 4096 % 64, 0x80 + n / 64 % 64, 0x80 + n % 64]

/-- A UTF-8 continuation byte. -/
def isCont (b : Nat) : Prop := 0x80 ≤ b ∧ b < 0xC0

instance (b : Nat) : Decidable (isCont b) := by unfold isCont; infer_instance

/-- Decode one multi-byte UTF-8 scalar led by `b0 ≥ 0x80`, returning the
character and the bytes not consumed.  Implements the strictness of
`std::str::from_utf8`: continuation-byte leads, overlong encodings,
surrogates and values above U+10FFFF are rejected. -/
def utf8Lead (b0 : Nat) (rest : List Nat) : Option (Char × List Nat) :=
  if 0xC2 ≤ b0 ∧ b0 ≤ 0xDF then
    match rest with
    | b1 :: rest1 =>
      if isCont b1 then
        some (Char.ofNat ((b0 - 0xC0) * 64 + (b1 - 0x80)), rest1)
      else none
    | [] => none
  else if 0xE0 ≤ b0 ∧ b0 ≤ 0xEF then
    match rest with
    | b1 :: b2 :: rest2 =>
      if (if b0 = 0xE0 then 0xA0 else 0x80) ≤ b1 ∧
          b1 ≤ (if b0 = 0xED then 0x9F else 0xBF) ∧ isCont b2 then
        some (Char.ofNat ((b0 - 0xE0) * 4096 + (b1 - 0x80) * 64 + (b2 - 0x80)),
          rest2)
      else none
    | _ => none
  else if 0xF0 ≤ b0 ∧ b0 ≤ 0xF4 then
    match rest with
    | b1 :: b2 :: b3 :: rest3 =>
      if (if b0 = 0xF0 then 0x90 else 0x80) ≤ b1 ∧
          b1 ≤ (if b0 = 0xF4 then 0x8F else 0xBF) ∧ isCont b2 ∧ isCont b3 then
        some (Char.ofNat ((b0 - 0xF0) * 262144 + (b1 - 0x80) * 4096 +
          (b2 - 0x80) * 64 + (b3 - 0x80)), rest3)
      else none
    | _ => none
  else none

/-- Worker for `utf8Decode`; the fuel (any bound on the list length) makes
the recursion structural.  Every step consumes at least one byte, so with
`fuel = length` the `none` fuel-exhaustion case is unreachable. -/
def utf8DecodeAux : Nat → List Nat → Option (List Char)
  | _, [] => some []
  | 0, _ :: _ => none
  | fuel + 1, b0 :: rest =>
    if b0 < 0x80 then (utf8DecodeAux fuel rest).map (Char.ofNat b0 :: ·)
    else
      match utf8Lead b0 rest with
      | some (c, rest1) => (utf8DecodeAux fuel rest1).map (c :: ·)
      | none => none

/-- Strict UTF-8 decoding, as `std::str::from_utf8`
(src/search_widget.rs:292). -/
def utf8Decode (bs : List Nat) : Option (List Char) := utf8DecodeAux bs.length bs

/-- Value of one hex digit, as the three comparison chains of
`SearchMode::parse` in Binary mode (src/search_widget.rs:161-171). -/
def hexVal (c : Char) : Option Nat :=
  if 'a' ≤ c ∧ c ≤ 'f' then some (c.toNat - 97 + 10)
  else if 'A' ≤ c ∧ c ≤ 'F' then some (c.toNat - 65 + 10)
  else if '0' ≤ c ∧ c ≤ '9' then some (c.toNat - 48)
  else none

/-- The Binary-mode parse loop (src/search_widget.rs:156-203): hex-digit
pairs separated by single spaces; a trailing lone digit is a one-digit
byte; any other character is an error. -/
def parseBinary : List Char → Option (List Nat)
  | [] => some []
  | [c] => (hexVal c).map fun h => [h]
  | c1 :: c2 :: rest =>
    match hexVal c1, hexVal c2 with
    | some h1, some h2 =>
      let byte := Nat.lor (h1 <<< 4) h2
      match rest with
      | [] => some [byte]
      | c3 :: rest1 =>
        if c3 = ' ' then (parseBinary rest1).map fun bs => byte :: bs else none
    | _, _ => none

/-- Uppercase hex digit, as `format!("{:02X}", byte)`. -/
def hexDigitChar (d : Nat) : Char :=
  if d < 10 then Char.ofNat (48 + d) else Char.ofNat (55 + d)

/-- `format!("{:02X} ", byte)`: two uppercase hex digits and a trailing
space (src/search_widget.rs:286-288). -/
def byteHex (b : Nat) : List Char := [hexDigitChar (b / 16), hexDigitChar (b % 16), ' ']

/-- `SearchMode::parse` (src/search_widget.rs:146-280), on the character
buffer.  `none` is a parse error (`Err` in the source). -/
def SearchMode.parse : SearchMode → List Char → Option (List Nat)
  | .String, input => some (input.foldr (fun c acc => utf8Encode c ++ acc) [])
  | .Binary, input => parseBinary input
  | .Integer sz sg en, input =>
    if input.isEmpty then some (List.replicate sz.width 0)
    else
      match sg with
      | .Unsigned => (parseUnsigned (8 * sz.width) input).map (intBytes sz.width en)
      | .Signed =>
        (parseSigned (8 * sz.width) input).map fun v =>
          intBytes sz.width en ((v % ((2 : Int) ^ (8 * sz.width))).toNat)

/-- `SearchMode::stringify` (src/search_widget.rs:282-393).  `none` is the
"not enough bytes" error (Integer) or invalid UTF-8 (String). -/
def SearchMode.stringify : SearchMode → List Nat → Option (List Char)
  | .Binary, input => some (input.foldr (fun b acc => byteHex b ++ acc) [])
  | .String, input => utf8Decode input
  | .Integer _ _ _, [] => some ['0']
  | .Integer .I8 sg _, b0 :: _ =>
    match sg with
    | .Unsigned => some (natToDecimal b0)
    | .Signed => some (intToDecimal (toSigned 8 b0))
  | .Integer sz sg en, b0 :: bs =>
    if (b0 :: bs).length < sz.width then none
    else
      let n := bytesToNat en ((b0 :: bs).take sz.width)
      match sg with
      | .Unsigned => some (natToDecimal n)
      | .Signed => some (intToDecimal (toSigned (8 * sz.width) n))

lemma natDigitsAux_eq_digits :
    ∀ fuel n, n ≤ fuel →
      natDigitsAux fuel n = ((Nat.digits 10 n).map Nat.digitChar).reverse := by
  intro fuel
  induction fuel with
  | zero =>
    intro n hn
    have : n = 0 := by omega
    subst this
    simp [natDigitsAux]
  | succ f ih =>
    intro n hn
    rw [natDigitsAux]
    by_cases h0 : n = 0
    · subst h0
      simp
    · rw [if_neg h0]
      rw [Nat.digits_def' (by norm_num : 1 < 10) (by omega)]
      rw [ih (n / 10) (by have := Nat.div_lt_self (by omega : 0 < n) (by norm_num : 1 < 10); omega)]
      simp

lemma digits_all_lt_ten (n : ℕ) : ∀ d ∈ Nat.digits 10 n, d < 10 := fun _ hd =>
  Nat.digits_lt_base (by norm_num) hd

lemma decDigit_digitChar : ∀ d < 10, decDigit (Nat.digitChar d) = some d := by decide

lemma digitChar_is_digit :
    ∀ d < 10, ('0' ≤ Nat.digitChar d ∧ Nat.digitChar d ≤ '9') := by decide

lemma parseDigitsAux_append (xs ys : List Char) (acc : Nat) :
    parseDigitsAux acc (xs ++ ys) =
      match parseDigitsAux acc xs with
      | some a => parseDigitsAux a ys
      | none => none := by
  induction xs generalizing acc with
  | nil => simp [parseDigitsAux]
  | cons c cs ih =>
    rw [List.cons_append, parseDigitsAux, parseDigitsAux]
    cases decDigit c with
    | none => simp
    | some d => simp only; exact ih _

lemma parseDigitsAux_singleton (acc d : Nat) (hd : d < 10) :
    parseDigitsAux acc [Nat.digitChar d] = some (acc * 10 + d) := by
  simp [parseDigitsAux, decDigit_digitChar d hd]

lemma parseDigitsAux_digits (ds : List Nat) (acc : Nat) (h : ∀ d ∈ ds, d < 10) :
    parseDigitsAux acc ((ds.map Nat.digitChar).reverse) =
      some (acc * 10 ^ ds.length + Nat.ofDigits 10 ds) := by
  induction ds generalizing acc with
  | nil => simp [parseDigitsAux]
  | cons d ds ih =>
    have hd : d < 10 := h d (by simp)
    rw [List.map_cons, List.reverse_cons, parseDigitsAux_append]
    rw [ih acc (fun x hx => h x (by simp [hx]))]
    dsimp only
    rw [parseDigitsAux_singleton _ d hd, Nat.ofDigits_cons]
    congr 1
    rw [List.length_cons, pow_succ]
    ring

lemma parseDigits_natToDecimal (n : Nat) : parseDigits (natToDecimal n) = some n := by
  by_cases h0 : n = 0
  · subst h0
    decide
  · unfold natToDecimal
    rw [if_neg h0, natDigitsAux_eq_digits n n le_rfl]
    have hne : Nat.digits 10 n ≠ [] := Nat.digits_ne_nil_iff_ne_zero.mpr h0
    rcases hds : ((Nat.digits 10 n).map Nat.digitChar).reverse with _ | ⟨c, cs⟩
    · exfalso
      apply hne
      have := congrArg List.length hds
      simpa using List.length_eq_zero.mp (by simpa using this)
    · have hred : parseDigits (c :: cs) = parseDigitsAux 0 (c :: cs) := rfl
      rw [hred, ← hds, parseDigitsAux_digits _ _ (digits_all_lt_ten n)]
      simp [Nat.ofDigits_digits]

lemma natToDecimal_all_digits (n : Nat) :
    ∀ c ∈ natToDecimal n, ('0' ≤ c ∧ c ≤ '9') := by
  intro c hc
  unfold natToDecimal at hc
  by_cases h0 : n = 0
  · rw [if_pos h0] at hc
    simp at hc
    subst hc
    decide
  · rw [if_neg h0, natDigitsAux_eq_digits n n le_rfl] at hc
    rw [List.mem_reverse, List.mem_map] at hc
    obtain ⟨d, hd, rfl⟩ := hc
    exact digitChar_is_digit d (digits_all_lt_ten n d hd)

lemma natToDecimal_ne_nil (n : Nat) : natToDecimal n ≠ [] := by
  unfold natToDecimal
  by_cases h0 : n = 0
  · simp [h0]
  · rw [if_neg h0, natDigitsAux_eq_digits n n le_rfl]
    have hne : Nat.digits 10 n ≠ [] := Nat.digits_ne_nil_iff_ne_zero.mpr h0
    simpa using hne

lemma natToDecimal_head_digit (n : Nat) :
    ∃ c cs, natToDecimal n = c :: cs ∧ '0' ≤ c ∧ c ≤ '9' := by
  rcases hcons : natToDecimal n with _ | ⟨c, cs⟩
  · exact absurd hcons (natToDecimal_ne_nil n)
  · exact ⟨c, cs, rfl, natToDecimal_all_digits n c (by rw [hcons]; simp)⟩

lemma parseUnsigned_natToDecimal (bits n : Nat) (h : n < 2 ^ bits) :
    parseUnsigned bits (natToDecimal n) = some n := by
  obtain ⟨c, cs, hcons, hc0, hc9⟩ := natToDecimal_head_digit n
  unfold parseUnsigned
  dsimp only
  rw [hcons]
  rw [if_neg (by
    simp only [List.head?_cons, Option.some.injEq]
    intro he
    rw [he] at hc0
    exact absurd hc0 (by decide))]
  rw [← hcons, parseDigits_natToDecimal]
  simp [h]

lemma parseSigned_intToDecimal (bits : Nat) (v : Int) (_hb : 1 ≤ bits)
    (h1 : -((2 : Int) ^ (bits - 1)) ≤ v) (h2 : v < 2 ^ (bits - 1)) :
    parseSigned bits (intToDecimal v) = some v := by
  by_cases hv : v < 0
  · unfold intToDecimal
    rw [if_pos hv]
    unfold parseSigned
    dsimp only
    rw [if_pos (show ('-' :: natToDecimal v.natAbs).head? = some '-' from rfl)]
    rw [List.tail_cons, parseDigits_natToDecimal]
    rw [Option.some_bind]
    rw [if_pos (by omega)]
    congr 1
    omega
  · unfold intToDecimal
    rw [if_neg hv]
    obtain ⟨c, cs, hcons, hc0, hc9⟩ := natToDecimal_head_digit v.toNat
    unfold parseSigned
    dsimp only
    rw [hcons]
    rw [if_neg (by
      simp only [List.head?_cons, Option.some.injEq]
      intro he
      rw [he] at hc0
      exact absurd hc0 (by decide))]
    rw [if_neg (by
      simp only [List.head?_cons, Option.some.injEq]
      intro he
      rw [he] at hc0
      exact absurd hc0 (by decide))]
    rw [← hcons, parseDigits_natToDecimal]
    rw [Option.some_bind]
    rw [if_pos (by omega)]
    congr 1
    omega

lemma leBytesToNat_lt (bs : List Nat) (h : ∀ b ∈ bs, b < 256) :
    leBytesToNat bs < 256 ^ bs.length := by
  induction bs with
  | nil => simp [leBytesToNat]
  | cons b bs ih =>
    have hb : b < 256 := h b (by simp)
    have hrest := ih fun x hx => h x (by simp [hx])
    rw [leBytesToNat, List.length_cons, pow_succ]
    have h256 : 256 ^ bs.length * 256 = 256 * 256 ^ bs.length := by ring
    omega

lemma natToLEBytes_leBytesToNat (bs : List Nat) (h : ∀ b ∈ bs, b < 256) :
    natToLEBytes bs.length (leBytesToNat bs) = bs := by
  induction bs with
  | nil => rfl
  | cons b bs ih =>
    have hb : b < 256 := h b (by simp)
    rw [List.length_cons, leBytesToNat, natToLEBytes]
    congr 1
    · rw [Nat.add_mul_mod_self_left, Nat.mod_eq_of_lt hb]
    · rw [Nat.add_mul_div_left _ _ (by norm_num : 0 < 256),
        Nat.div_eq_of_lt hb, Nat.zero_add]
      exact ih fun x hx => h x (by simp [hx])

lemma pow256 (w : Nat) : (256 : Nat) ^ w = 2 ^ (8 * w) := by
  rw [show (256 : Nat) = 2 ^ 8 by norm_num, ← pow_mul]

lemma bytesToNat_lt (en : Endian) (bs : List Nat) (h : ∀ b ∈ bs, b < 256) :
    bytesToNat en bs < 2 ^ (8 * bs.length) := by
  rw [← pow256]
  cases en with
  | Little => exact leBytesToNat_lt bs h
  | Big =>
    have := leBytesToNat_lt bs.reverse fun x hx => h x (List.mem_reverse.mp hx)
    rw [List.length_reverse] at this
    exact this

lemma intBytes_bytesToNat (en : Endian) (bs : List Nat) (h : ∀ b ∈ bs, b < 256) :
    intBytes bs.length en (bytesToNat en bs) = bs := by
  cases en with
  | Little => exact natToLEBytes_leBytesToNat bs h
  | Big =>
    show (natToLEBytes bs.length (leBytesToNat bs.reverse)).reverse = bs
    rw [← List.length_reverse bs,
      natToLEBytes_leBytesToNat bs.reverse fun x hx => h x (List.mem_reverse.mp hx),
      List.reverse_reverse]

lemma toSigned_range (bits n : Nat) (hb : 1 ≤ bits) (h : n < 2 ^ bits) :
    -((2 : Int) ^ (bits - 1)) ≤ toSigned bits n ∧
      toSigned bits n < 2 ^ (bits - 1) := by
  have h2 : (2 : Nat) ^ bits = 2 * 2 ^ (bits - 1) := by
    conv_lhs => rw [show bits = bits - 1 + 1 by omega]
    rw [pow_succ]
    ring
  have hcast : ((2 : Int) ^ (bits - 1)) = ((2 ^ (bits - 1) : Nat) : Int) := by
    push_cast
    ring
  have hcast2 : ((2 : Int) ^ bits) = ((2 ^ bits : Nat) : Int) := by
    push_cast
    ring
  unfold toSigned
  constructor <;> split <;> simp only [hcast, hcast2] <;> omega

lemma toSigned_emod (bits n : Nat) (h : n < 2 ^ bits) :
    ((toSigned bits n) % ((2 : Int) ^ bits)).toNat = n := by
  unfold toSigned
  split
  · rw [Int.emod_eq_of_lt (by positivity) (by exact_mod_cast h)]
    simp
  · have hrw : ((n : Int) - 2 ^ bits) % 2 ^ bits = (n : Int) % 2 ^ bits := by
      conv_lhs => rw [sub_eq_add_neg, show -((2 : Int) ^ bits) = 2 ^ bits * (-1) by ring]
      apply Int.add_mul_emod_self_left
    rw [hrw, Int.emod_eq_of_lt (by positivity) (by exact_mod_cast h)]
    simp

lemma unsigned_value_roundtrip (w : Nat) (en : Endian) (bs : List Nat)
    (hw : bs.length = w) (hb : ∀ b ∈ bs, b < 256) :
    (parseUnsigned (8 * w) (natToDecimal (bytesToNat en bs))).map (intBytes w en) =
      some bs := by
  subst hw
  rw [parseUnsigned_natToDecimal _ _ (bytesToNat_lt en bs hb)]
  simp [intBytes_bytesToNat en bs hb]

lemma signed_value_roundtrip (w : Nat) (en : Endian) (bs : List Nat) (hw1 : 1 ≤ w)
    (hw : bs.length = w) (hb : ∀ b ∈ bs, b < 256) :
    ((parseSigned (8 * w) (intToDecimal (toSigned (8 * w) (bytesToNat en bs)))).map
      fun v => intBytes w en ((v % ((2 : Int) ^ (8 * w))).toNat)) = some bs := by
  subst hw
  have hlt := bytesToNat_lt en bs hb
  have hr := toSigned_range (8 * bs.length) (bytesToNat en bs) (by omega) hlt
  rw [parseSigned_intToDecimal _ _ (by omega) hr.1 hr.2]
  rw [Option.map_some']
  rw [toSigned_emod _ _ hlt, intBytes_bytesToNat en bs hb]

lemma hexVal_hexDigitChar : ∀ d < 16, hexVal (hexDigitChar d) = some d := by decide

set_option maxRecDepth 8000 in
lemma byte_recon : ∀ b < 256, Nat.lor ((b / 16) <<< 4) (b % 16) = b := by decide

lemma parseBinary_roundtrip (bs : List Nat) (h : ∀ b ∈ bs, b < 256) :
    parseBinary (bs.foldr (fun b acc => byteHex b ++ acc) []) = some bs := by
  induction bs with
  | nil => rfl
  | cons b bs ih =>
    have hb : b < 256 := h b (by simp)
    show parseBinary (hexDigitChar (b / 16) :: hexDigitChar (b % 16) :: ' ' ::
      bs.foldr (fun b acc => byteHex b ++ acc) []) = some (b :: bs)
    rw [parseBinary]
    rw [hexVal_hexDigitChar _ (by omega), hexVal_hexDigitChar _ (by omega)]
    dsimp only
    rw [if_pos rfl]
    rw [ih fun x hx => h x (by simp [hx])]
    rw [Option.map_some']
    rw [byte_recon b hb]

lemma utf8Encode_ofNat_ascii : ∀ b < 128, utf8Encode (Char.ofNat b) = [b] := by decide

lemma utf8DecodeAux_ascii (bs : List Nat) :
    ∀ fuel, bs.length ≤ fuel → (∀ b ∈ bs, b < 128) →
      utf8DecodeAux fuel bs = some (bs.map Char.ofNat) := by
  induction bs with
  | nil => intro fuel _ _; cases fuel <;> rfl
  | cons b bs ih =>
    intro fuel hf h
    have hb : b < 128 := h b (by simp)
    obtain ⟨f, rfl⟩ : ∃ f, fuel = f + 1 := ⟨fuel - 1, by simp at hf; omega⟩
    rw [utf8DecodeAux]
    rw [if_pos (show b < 0x80 by omega)]
    rw [ih f (by simp at hf; omega) fun x hx => h x (by simp [hx])]
    rfl

lemma utf8Decode_ascii (bs : List Nat) (h : ∀ b ∈ bs, b < 128) :
    utf8Decode bs = some (bs.map Char.ofNat) :=
  utf8DecodeAux_ascii bs bs.length le_rfl h

lemma utf8Encode_foldr_ascii (bs : List Nat) (h : ∀ b ∈ bs, b < 128) :
    (bs.map Char.ofNat).foldr (fun c acc => utf8Encode c ++ acc) [] = bs := by
  induction bs with
  | nil => rfl
  | cons b bs ih =>
    rw [List.map_cons, List.foldr_cons, utf8Encode_ofNat_ascii b (h b (by simp))]
    rw [ih fun x hx => h x (by simp [hx])]
    rfl

lemma natToDecimal_isEmpty (n : Nat) : (natToDecimal n).isEmpty = false := by
  obtain ⟨c, cs, hcons, -, -⟩ := natToDecimal_head_digit n
  rw [hcons]
  rfl

lemma intToDecimal_isEmpty (v : Int) : (intToDecimal v).isEmpty = false := by
  unfold intToDecimal
  split
  · rfl
  · exact natToDecimal_isEmpty _

lemma bytesToNat_singleton (en : Endian) (b : Nat) : bytesToNat en [b] = b := by
  cases en <;> simp [bytesToNat, leBytesToNat]

lemma IntSize.width_pos : ∀ sz : IntSize, 1 ≤ sz.width := by
  intro sz
  cases sz <;> decide

lemma parse_integer_nonempty (sz : IntSize) (sg : Sign) (en : Endian)
    (input : List Char) (hne : input.isEmpty = false) :
    (SearchMode.Integer sz sg en).parse input =
      match sg with
      | .Unsigned => (parseUnsigned (8 * sz.width) input).map (intBytes sz.width en)
      | .Signed =>
        (parseSigned (8 * sz.width) input).map fun v =>
          intBytes sz.width en ((v % ((2 : Int) ^ (8 * sz.width))).toNat) := by
  dsimp only [SearchMode.parse]
  rw [hne]
  rfl

lemma stringify_integer_exact (sz : IntSize) (sg : Sign) (en : Endian)
    (bs : List Nat) (hw : bs.length = sz.width) :
    (SearchMode.Integer sz sg en).stringify bs =
      match sg with
      | .Unsigned => some (natToDecimal (bytesToNat en bs))
      | .Signed => some (intToDecimal (toSigned (8 * sz.width) (bytesToNat en bs))) := by
  cases sz with
  | I8 =>
    obtain ⟨b0, rfl⟩ := List.length_eq_one.mp hw
    cases sg <;> simp [SearchMode.stringify, bytesToNat_singleton, IntSize.width]
  | I16 =>
    match bs, hw with
    | b0 :: bs, hw =>
      cases sg
      all_goals dsimp only [SearchMode.stringify]
      all_goals rw [if_neg (by omega)]
      all_goals rw [show (b0 :: bs).take IntSize.I16.width = b0 :: bs from by
        rw [← hw, List.take_length]]
  | I32 =>
    match bs, hw with
    | b0 :: bs, hw =>
      cases sg
      all_goals dsimp only [SearchMode.stringify]
      all_goals rw [if_neg (by omega)]
      all_goals rw [show (b0 :: bs).take IntSize.I32.width = b0 :: bs from by
        rw [← hw, List.take_length]]
  | I64 =>
    match bs, hw with
    | b0 :: bs, hw =>
      cases sg
      all_goals dsimp only [SearchMode.stringify]
      all_goals rw [if_neg (by omega)]
      all_goals rw [show (b0 :: bs).take IntSize.I64.width = b0 :: bs from by
        rw [← hw, List.take_length]]

/-- C3: for every `SearchMode`, `parse (stringify bytes) = bytes`: for every
byte sequence of exactly the mode's width in Integer mode, for every
ASCII-only byte sequence in Text (String) mode, and for every byte sequence
in Binary mode. -/
theorem SearchMode.parse_stringify_roundtrip :
    (∀ (sz : IntSize) (sg : Sign) (en : Endian) (bs : List Nat),
        bs.length = sz.width → (∀ b ∈ bs, b < 256) →
        ((SearchMode.Integer sz sg en).stringify bs).bind
          ((SearchMode.Integer sz sg en).parse) = some bs) ∧
      (∀ bs : List Nat, (∀ b ∈ bs, b < 128) →
        (SearchMode.String.stringify bs).bind (SearchMode.String.parse) = some bs) ∧
      (∀ bs : List Nat, (∀ b ∈ bs, b < 256) →
        (SearchMode.Binary.stringify bs).bind (SearchMode.Binary.parse) = some bs) := by
  refine ⟨?_, ?_, ?_⟩
  · intro sz sg en bs hw hb
    rw [stringify_integer_exact sz sg en bs hw]
    cases sg
    · rw [Option.some_bind,
        parse_integer_nonempty sz .Signed en _ (intToDecimal_isEmpty _)]
      exact signed_value_roundtrip sz.width en bs (IntSize.width_pos sz) hw hb
    · rw [Option.some_bind,
        parse_integer_nonempty sz .Unsigned en _ (natToDecimal_isEmpty _)]
      exact unsigned_value_roundtrip sz.width en bs hw hb
  · intro bs h
    dsimp only [SearchMode.stringify]
    rw [utf8Decode_ascii bs h, Option.some_bind]
    dsimp only [SearchMode.parse]
    rw [utf8Encode_foldr_ascii bs h]
  · intro bs h
    dsimp only [SearchMode.stringify]
    rw [Option.some_bind]
    dsimp only [SearchMode.parse]
    exact parseBinary_roundtrip bs h

/-- Witness for C3: one concrete instance of each of the three parts
(8-byte big-endian signed integer, ASCII text, arbitrary binary bytes). -/
theorem SearchMode.parse_stringify_roundtrip_witness :
    (((SearchMode.Integer .I64 .Signed .Big).stringify
          [255, 1, 2, 3, 4, 5, 6, 7]).bind
        ((SearchMode.Integer .I64 .Signed .Big).parse) =
      some [255, 1, 2, 3, 4, 5, 6, 7]) ∧
      ((SearchMode.String.stringify [72, 105, 0, 9]).bind
          (SearchMode.String.parse) = some [72, 105, 0, 9]) ∧
      ((SearchMode.Binary.stringify [171, 5, 0]).bind (SearchMode.Binary.parse) =
        some [171, 5, 0]) :=
  ⟨SearchMode.parse_stringify_roundtrip.1 .I64 .Signed .Big
      [255, 1, 2, 3, 4, 5, 6, 7] (by decide) (by decide),
    SearchMode.parse_stringify_roundtrip.2.1 [72, 105, 0, 9] (by decide),
    SearchMode.parse_stringify_roundtrip.2.2 [171, 5, 0] (by decide)⟩
